import Mathlib

/-!
Verification of the `aph` repository (Argon2id hash CLI helper library).

The embedding follows `src/aph.go`:

* `ParseTime` / `ParseMemory` mirror the Go functions of the same name.
  The Go functions work on `float64` values produced by
  `strconv.ParseFloat`; the binary64 arithmetic is embedded exactly over
  `ℚ`: every finite double is a rational number, and IEEE-754
  round-to-nearest-even is the computable function `roundFloat` below.
  Values at or above `2^1024` stand for the would-be infinities; Go's
  `strconv.ParseFloat` reports a range error exactly when the rounded
  value reaches `2^1024`.
* The regular expressions `(\d+(?:\.\d+)?)(ms|s)` and
  `(\d+(?:\.\d+)?)(KB|MB|GB)` used via `FindStringSubmatch` are embedded
  as the explicit leftmost matcher `findStamp`: Go's regexp engine scans
  for the earliest start position; at a given position the digit runs
  are effectively maximal (shortening a `\d+` run leaves a digit as the
  next character, which can never begin the unit alternatives), and the
  optional fractional group participates exactly when a `.` followed by
  a digit is present.
* Go multi-value returns `(T, error)` are embedded as `T × Option Err`.
-/

/- Batteries marks the `Rat` field operations `@[irreducible]`, which
blocks definitional evaluation of the concrete parser runs below; restore
the default transparency so that `decide` can evaluate them. -/
attribute [local semireducible] Rat.add Rat.mul Rat.sub Rat.inv

set_option maxRecDepth 20000


namespace Aph

/-! ### Binary64 (IEEE-754 double) model over ℚ -/

/-- Fuel-driven floor of `log₂`, with an accumulator (tail recursion
keeps definitional evaluation shallow); the fuel only bounds the
recursion. -/
def log2Fuel : ℕ → ℕ → ℕ → ℕ
  | _, 0, acc => acc
  | n, fuel + 1, acc => if n ≤ 1 then acc else log2Fuel (n / 2) fuel (acc + 1)

/-- `natLog2 n` is `⌊log₂ n⌋` for `n ≥ 1` (and `0` for `n = 0`). -/
def natLog2 (n : ℕ) : ℕ := log2Fuel n n 0

/-- `2 ^ n` as a rational, for an integer (possibly negative) exponent.
(Written with `<<<` so that it evaluates in constant recursion depth.) -/
def pow2 (n : ℤ) : ℚ := if 0 ≤ n then mkRat (1 <<< n.toNat) 1 else mkRat 1 (1 <<< (-n).toNat)

/-- `⌊log₂ q⌋` for a positive rational `q`. -/
def ilog2 (q : ℚ) : ℤ :=
  let l : ℤ := (natLog2 q.num.natAbs : ℤ) - (natLog2 q.den : ℤ)
  if pow2 l ≤ q then l else l - 1

/-- Spacing of the binary64 grid around a positive rational `q`:
`2^(⌊log₂ q⌋ - 52)` in the normal range, `2^-1074` for subnormals. -/
def ulpAt (q : ℚ) : ℚ :=
  if ilog2 q < -1022 then pow2 (-1074) else pow2 (ilog2 q - 52)

/-- Round `q` to a multiple of `ulp`: round-to-nearest, ties to even. -/
def roundAt (q ulp : ℚ) : ℚ :=
  if q / ulp - (q / ulp).floor < mkRat 1 2 then (q / ulp).floor * ulp
  else if mkRat 1 2 < q / ulp - (q / ulp).floor then ((q / ulp).floor + 1) * ulp
  else if (q / ulp).floor % 2 = 0 then (q / ulp).floor * ulp
  else ((q / ulp).floor + 1) * ulp

/-- Round a nonnegative rational to the IEEE-754 binary64 grid,
round-to-nearest, ties to even.  Results `≥ 2^1024` stand for `+Inf`.
Mirrors the rounding performed by Go's `strconv.ParseFloat` and by
float64 multiplication. -/
def roundFloat (q : ℚ) : ℚ :=
  if q ≤ 0 then 0 else roundAt q (ulpAt q)

/-- Truncation toward zero, as in Go's `math.Trunc` / `int(float64)`. -/
def ratTrunc (q : ℚ) : ℤ := q.num.tdiv q.den

/-- Go's `int(x)` conversion from `float64` on amd64: exact truncation in
range; out-of-range values (including the `+Inf` stand-ins) produce the
minimal int64.  (The Go specification leaves the out-of-range case
implementation-dependent; the gc compiler on amd64 yields `-2^63`.) -/
def goInt (q : ℚ) : ℤ :=
  if q < -(9223372036854775808 : ℚ) ∨ (9223372036854775808 : ℚ) ≤ q then
    -(9223372036854775808 : ℤ)
  else ratTrunc q

/-! ### The stamp matcher (the two Go regexes) -/

/-- Maximal leading digit run of a character list, with the rest. -/
def takeDigits : List Char → List Char × List Char
  | [] => ([], [])
  | c :: cs =>
    if c.isDigit then
      let p := takeDigits cs
      (c :: p.1, p.2)
    else ([], c :: cs)

/-- `startsWithChars u cs` holds when `u` is an initial segment of `cs`. -/
def startsWithChars : List Char → List Char → Bool
  | [], _ => true
  | _ :: _, [] => false
  | u :: us, c :: cs => u = c && startsWithChars us cs

/-- First unit alternative (in regex alternation order) matching at the
current position. -/
def findUnit (units : List (List Char)) (cs : List Char) : Option (List Char) :=
  units.find? fun u => startsWithChars u cs

/-- The optional fractional group `(?:\.\d+)?`: it participates (with a
maximal digit run) exactly when a `.` followed by at least one digit is
present; otherwise it matches the empty string. -/
def takeFrac : List Char → List Char × List Char
  | '.' :: r =>
    (match takeDigits r with
      | ([], _) => ([], '.' :: r)
      | (fs, r2) => (fs, r2))
  | cs => ([], cs)

/-- Attempt the regex `(\d+(?:\.\d+)?)(u₁|u₂|…)` anchored at the current
position: maximal digit run, optional `.`-plus-maximal-digit-run, then a
unit alternative.  Returns `(integer digits, fraction digits, unit)`;
an empty fraction means the optional group did not participate. -/
def matchFrom (units : List (List Char)) (cs : List Char) :
    Option (List Char × List Char × List Char) :=
  match takeDigits cs with
  | ([], _) => none
  | (ds, rest) =>
    match takeFrac rest with
    | (fs, rest2) =>
      match findUnit units rest2 with
      | some u => some (ds, fs, u)
      | none => none

/-- Leftmost match of the stamp regex in a character list, as found by
Go's `regexp.FindStringSubmatch`. -/
def findStamp (units : List (List Char)) : List Char → Option (List Char × List Char × List Char)
  | [] => none
  | c :: cs =>
    match matchFrom units (c :: cs) with
    | some r => some r
    | none => findStamp units cs

/-- Unit alternatives of the Go regex `(\d+(?:\.\d+)?)(ms|s)`. -/
def timeUnits : List (List Char) := [['m', 's'], ['s']]

/-- Unit alternatives of the Go regex `(\d+(?:\.\d+)?)(KB|MB|GB)`. -/
def memoryUnits : List (List Char) := [['K', 'B'], ['M', 'B'], ['G', 'B']]

/-- Numeric value of a digit string. -/
def digitsVal (cs : List Char) : ℕ := cs.foldl (fun a c => 10 * a + (c.toNat - 48)) 0

/-- Exact decimal value of `ds.fs` (integer digits `ds`, fraction digits
`fs`; an empty `fs` means no fractional part). -/
def decVal (ds fs : List Char) : ℚ :=
  mkRat (digitsVal ds) 1 + mkRat (digitsVal fs) (10 ^ fs.length)

/-- The optional fractional part of a stamp, as written: empty when
there are no fraction digits, otherwise a dot followed by them. -/
def fracPart (fs : List Char) : List Char := if fs.isEmpty then [] else '.' :: fs

/-- The error values of `aph.go`'s parse functions: its two declared
errors, plus the `strconv` range error that `ParseFloat` produces for
out-of-range numbers and that the Go code returns unchanged (on a
regex-matched decimal string, a range error is the only possible
`ParseFloat` failure). -/
inductive ParseErr
  | ErrorMalformedStamp
  | ErrorSplitAtomic
  | ErrRange
deriving DecidableEq, Repr

/-- Embedding of Go `ParseTime` (`src/aph.go:68`): leftmost regex match,
`strconv.ParseFloat`, then the `ms`/`s` switch.  Returns the Go pair
`(int, error)`.  (Go's local variable `t`, the parsed float, is the
inlined `roundFloat (decVal ds fs)`.) -/
def ParseTime (stamp : String) : ℤ × Option ParseErr :=
  match findStamp timeUnits stamp.data with
  | none => (0, some .ErrorMalformedStamp)
  | some (ds, fs, unit) =>
    if pow2 1024 ≤ roundFloat (decVal ds fs) then (0, some .ErrRange)
    else
      if unit = ['m', 's'] then
        if (ratTrunc (roundFloat (decVal ds fs)) : ℚ) ≠ roundFloat (decVal ds fs) then
          (0, some .ErrorSplitAtomic)
        else (goInt (roundFloat (decVal ds fs)), none)
      else if unit = ['s'] then
        (goInt (roundFloat (roundFloat (decVal ds fs) * 1000)), none)
      else (0, none)

/-- Embedding of Go `ParseMemory` (`src/aph.go:97`): leftmost regex
match, `strconv.ParseFloat`, then the `KB`/`MB`/`GB` switch.  (Go's
local variable `s` is the inlined `roundFloat (decVal ds fs)`.) -/
def ParseMemory (stamp : String) : ℤ × Option ParseErr :=
  match findStamp memoryUnits stamp.data with
  | none => (0, some .ErrorMalformedStamp)
  | some (ds, fs, unit) =>
    if pow2 1024 ≤ roundFloat (decVal ds fs) then (0, some .ErrRange)
    else
      if unit = ['K', 'B'] then
        if (ratTrunc (roundFloat (decVal ds fs)) : ℚ) ≠ roundFloat (decVal ds fs) then
          (0, some .ErrorSplitAtomic)
        else (goInt (roundFloat (decVal ds fs)), none)
      else if unit = ['M', 'B'] then
        (goInt (roundFloat (roundFloat (decVal ds fs) * 1024)), none)
      else if unit = ['G', 'B'] then
        (goInt (roundFloat (roundFloat (roundFloat (decVal ds fs) * 1024) * 1024)), none)
      else (0, none)


/-! ### The hash orchestrator

The hashing primitive (`github.com/JordanOcokoljic/argon2id`) is not part
of this repository's sources; it is the external collaborator of spec §6.
Its contract — parameter constructor, optional explicit salt override,
deterministic `$argon2id$v=19$m=<memoryKB>,t=<timeCost>,p=<threads>$
<base64 salt>$<base64 hash>` encoding, primitive-managed random salt when
none is supplied — is modelled below from the spec; the raw digest bytes
themselves are fixed only for the test vector that the spec pins (§8).
Byte strings are modelled as lists of naturals; for the ASCII data in
the claims this coincides with UTF-8. -/

/-- Codepoints of a Go string as its bytes (exact for ASCII data). -/
def strBytes (s : String) : List ℕ := s.data.map Char.toNat

/-- Inverse of `strBytes`: Go's `string(bytes)`. -/
def bytesToStr (l : List ℕ) : String := String.mk (l.map Char.ofNat)

/-- The base64 alphabet. -/
def b64Alphabet : List Char :=
  "ABCDEFGHIJKLMNOPQRSTUVWXYZabcdefghijklmnopqrstuvwxyz0123456789+/".data

/-- Character for a 6-bit group. -/
def b64Char (n : ℕ) : Char := b64Alphabet.getD n 'A'

/-- Padding-free (raw) standard base64, as used in the primitive's hash
encoding and in the repository's expected test vectors. -/
def b64Encode : List ℕ → List Char
  | [] => []
  | [b1] => [b64Char (b1 / 4), b64Char (b1 % 4 * 16)]
  | [b1, b2] => [b64Char (b1 / 4), b64Char (b1 % 4 * 16 + b2 / 16), b64Char (b2 % 16 * 4)]
  | b1 :: b2 :: b3 :: rest =>
    b64Char (b1 / 4) :: b64Char (b1 % 4 * 16 + b2 / 16) ::
      b64Char (b2 % 16 * 4 + b3 / 64) :: b64Char (b3 % 64) :: b64Encode rest

/-- The error values of the hash orchestration, per spec §7: the
primitive's parameter validation failure and its hashing failure. -/
inductive HashErr
  | ParameterError
  | HashingFailure
deriving DecidableEq, Repr

/-- The primitive's parameter record (`argon2id.Parameters`): the typed
`uint32`/`uint8` fields plus the salt bytes. -/
structure Parameters where
  Time : ℕ
  Memory : ℕ
  Threads : ℕ
  Length : ℕ
  Salt : List ℕ
deriving DecidableEq, Repr

/-- Modelled from the spec: `argon2id.NewParameters`, the parameter
constructor of the external primitive (not in `src/`).  Per §6 it
"validat[es] time/memory/thread/length ranges and fails on invalid
input", the stated ranges being that the thread count fits 8 unsigned
bits and time/memory/length fit 32 unsigned bits (§4.2); per §4.2 the
primitive manages a freshly generated random salt, supplied here as the
oracle argument `saltOracle`.  On failure Go returns the zero
`Parameters` alongside the error. -/
def NewParameters (time memory threads length : ℕ) (saltOracle : List ℕ) :
    Parameters × Option HashErr :=
  if time < 2 ^ 32 ∧ memory < 2 ^ 32 ∧ threads < 2 ^ 8 ∧ length < 2 ^ 32 then
    ({ Time := time, Memory := memory, Threads := threads, Length := length,
       Salt := saltOracle }, none)
  else
    ({ Time := 0, Memory := 0, Threads := 0, Length := 0, Salt := [] },
      some .ParameterError)

/-- Modelled from the spec: the primitive's raw digest bytes, which no
part of this repository computes.  The spec fixes only the §8 test
vector (password "mypassword", salt "mysalt", t=1, m=65536, p=1,
length 8 gives the bytes encoding to "siUWf7GXJ34"); elsewhere the
digest is an unspecified deterministic function of its inputs, modelled
by a placeholder of the requested length. -/
def rawDigest (password : List ℕ) (params : Parameters) : List ℕ :=
  if password = strBytes "mypassword" ∧
      params = ⟨1, 65536, 1, 8, strBytes "mysalt"⟩ then
    [178, 37, 22, 127, 177, 151, 39, 126]
  else List.replicate params.Length 0

/-- Modelled from the spec: the encoded hash string returned by the
primitive, following §6's convention
`$argon2id$v=19$m=<memoryKB>,t=<timeCost>,p=<threads>$<base64 salt>$<base64 hash>`. -/
def encodedHash (password : List ℕ) (params : Parameters) : List Char :=
  "$argon2id$v=19$m=".data ++ (Nat.repr params.Memory).data ++
    ",t=".data ++ (Nat.repr params.Time).data ++
    ",p=".data ++ (Nat.repr params.Threads).data ++
    "$".data ++ b64Encode params.Salt ++
    "$".data ++ b64Encode (rawDigest password params)

/-- Modelled from the spec: `argon2id.GenerateFromPassword`, the
primitive's hash-and-encode operation — deterministic in its arguments
(§6), hashing with `params.Salt`. -/
def GenerateFromPassword (password : List ℕ) (params : Parameters) :
    List Char × Option HashErr :=
  (encodedHash password params, none)

/-- The `ResultSet` record of `src/aph.go:53`.  `Duration` is Go's
`time.Duration` (an `int64`). -/
structure ResultSet where
  Time : ℤ
  Threads : ℤ
  Memory : ℤ
  Length : ℤ
  Key : String
  Hash : String
  Characters : ℤ
  Duration : ℤ
  Salt : String
deriving DecidableEq, Repr

/-- Go's zero value `ResultSet{}`. -/
def emptyResultSet : ResultSet :=
  { Time := 0, Threads := 0, Memory := 0, Length := 0, Key := "", Hash := "",
    Characters := 0, Duration := 0, Salt := "" }

/-- Core of Go `generateHash` (`src/aph.go:128`): the handling of the
primitive call's outcome `prim` and the assembly of the `ResultSet`.
The elapsed wall-clock time measured by `time.Since` around the call is
the oracle input `dur`; Go's monotonic clock makes it nonnegative, hence
`dur : ℕ`. -/
def generateHashCore (params : Parameters) (password : List ℕ)
    (prim : List Char × Option HashErr) (dur : ℕ) : ResultSet × Option HashErr :=
  match prim.2 with
  | some e => (emptyResultSet, some e)
  | none =>
    ({ Time := params.Time, Threads := params.Threads, Memory := params.Memory,
       Length := params.Length, Key := bytesToStr password,
       Hash := String.mk prim.1, Characters := prim.1.length,
       Duration := dur, Salt := bytesToStr params.Salt }, none)

/-- Go `generateHash` (`src/aph.go:128`): run the primitive, then
assemble the result. -/
def generateHash (params : Parameters) (password : List ℕ) (dur : ℕ) :
    ResultSet × Option HashErr :=
  generateHashCore params password (GenerateFromPassword password params) dur

/-- Go's `uint32(x)` conversion from `int`: reduction modulo `2^32` of
the two's-complement value. -/
def goUint32 (x : ℤ) : ℕ := (x % 4294967296).toNat

/-- Go's `uint8(x)` conversion from `int`: reduction modulo `2^8`. -/
def goUint8 (x : ℤ) : ℕ := (x % 256).toNat

/-- Go `GenerateHash` (`src/aph.go:160`): convert the `int` arguments to
the primitive's unsigned types, construct parameters (obtaining the
primitive-managed random salt `saltOracle`), and hash. -/
def GenerateHash (seconds threads memory length : ℤ) (key : String)
    (saltOracle : List ℕ) (dur : ℕ) : ResultSet × Option HashErr :=
  let pe := NewParameters (goUint32 seconds) (goUint32 memory) (goUint8 threads)
    (goUint32 length) saltOracle
  match pe.2 with
  | some e => (emptyResultSet, some e)
  | none => generateHash pe.1 (strBytes key) dur

/-- Go `GenerateHashWithSalt` (`src/aph.go:183`): as `GenerateHash`, but
the caller-supplied salt overwrites `params.Salt` (in the Go source this
assignment happens before the error check, mirrored here). -/
def GenerateHashWithSalt (seconds threads memory length : ℤ) (key salt : String)
    (saltOracle : List ℕ) (dur : ℕ) : ResultSet × Option HashErr :=
  let pe := NewParameters (goUint32 seconds) (goUint32 memory) (goUint8 threads)
    (goUint32 length) saltOracle
  let params := { pe.1 with Salt := strBytes salt }
  match pe.2 with
  | some e => (emptyResultSet, some e)
  | none => generateHash params (strBytes key) dur

/-! ### Matcher lemmas -/


theorem takeDigits_append {ds rest : List Char} (hds : ∀ c ∈ ds, c.isDigit = true)
    (hrest : ∀ c, rest.head? = some c → c.isDigit = false) :
    takeDigits (ds ++ rest) = (ds, rest) := by
  induction ds with
  | nil =>
    cases rest with
    | nil => rfl
    | cons c cs => simp [takeDigits, hrest c rfl]
  | cons d ds ih =>
    have hd : d.isDigit = true := hds d (by simp)
    have ih' := ih (fun c hc => hds c (by simp [hc]))
    simp only [List.cons_append, takeDigits, hd, if_true]
    rw [show ds.append rest = ds ++ rest from rfl, ih']

theorem takeFrac_not_dot {c : Char} {r : List Char} (hc : c ≠ '.') :
    takeFrac (c :: r) = ([], c :: r) := by
  unfold takeFrac
  split
  · next heq => cases heq; exact absurd rfl hc
  · rfl

theorem takeFrac_nil : takeFrac [] = ([], []) := rfl

theorem takeFrac_dot {fs rest : List Char} (hfs : fs ≠ [])
    (hdig : ∀ c ∈ fs, c.isDigit = true)
    (hrest : ∀ c, rest.head? = some c → c.isDigit = false) :
    takeFrac ('.' :: (fs ++ rest)) = (fs, rest) := by
  obtain ⟨f, fs', rfl⟩ : ∃ f t, fs = f :: t := by
    cases fs with
    | nil => exact absurd rfl hfs
    | cons f t => exact ⟨f, t, rfl⟩
  rw [takeFrac, takeDigits_append hdig hrest]

theorem matchFrom_head_not_digit (units : List (List Char)) {c : Char}
    (cs : List Char) (h : c.isDigit = false) :
    matchFrom units (c :: cs) = none := by
  simp [matchFrom, takeDigits, h]

theorem findStamp_skip {units : List (List Char)} {pre : List Char}
    (rest : List Char) (h : ∀ c ∈ pre, c.isDigit = false) :
    findStamp units (pre ++ rest) = findStamp units rest := by
  induction pre with
  | nil => rfl
  | cons c cs ih =>
    have hc : c.isDigit = false := h c (by simp)
    simp only [List.cons_append, findStamp, matchFrom_head_not_digit units _ hc]
    exact ih fun d hd => h d (by simp [hd])

theorem matchFrom_build {units : List (List Char)} {ds fs rest u : List Char}
    (hds : ds ≠ []) (hdig : ∀ c ∈ ds, c.isDigit = true)
    (hfs : ∀ c ∈ fs, c.isDigit = true)
    (hhead : ∀ c, rest.head? = some c → c.isDigit = false ∧ c ≠ '.')
    (hfind : findUnit units rest = some u) :
    matchFrom units (ds ++ (fracPart fs ++ rest)) = some (ds, fs, u) := by
  obtain ⟨d, ds', rfl⟩ : ∃ d t, ds = d :: t := by
    cases ds with
    | nil => exact absurd rfl hds
    | cons d t => exact ⟨d, t, rfl⟩
  have hfrac : takeFrac (fracPart fs ++ rest) = (fs, rest) := by
    cases fs with
    | nil =>
      simp only [fracPart, List.isEmpty_nil, if_true, List.nil_append]
      cases hr : rest with
      | nil => exact takeFrac_nil
      | cons c r => exact takeFrac_not_dot (hhead c (by rw [hr]; rfl)).2
    | cons f fs' =>
      simp only [fracPart, List.isEmpty_cons, if_false]
      exact takeFrac_dot (by simp) hfs (fun c hc => (hhead c hc).1)
  have hdigits : takeDigits ((d :: ds') ++ (fracPart fs ++ rest)) =
      (d :: ds', fracPart fs ++ rest) := by
    refine takeDigits_append hdig ?_
    intro c hc
    cases fs with
    | nil =>
      simp only [fracPart, List.isEmpty_nil, if_true, List.nil_append] at hc
      exact (hhead c hc).1
    | cons f fs' =>
      simp only [fracPart, List.isEmpty_cons, if_false, List.cons_append] at hc
      cases hc
      decide
  rw [matchFrom, hdigits]
  simp only [hfrac, hfind]

theorem findStamp_build {units : List (List Char)} {pre ds fs rest u : List Char}
    (hpre : ∀ c ∈ pre, c.isDigit = false)
    (hds : ds ≠ []) (hdig : ∀ c ∈ ds, c.isDigit = true)
    (hfs : ∀ c ∈ fs, c.isDigit = true)
    (hhead : ∀ c, rest.head? = some c → c.isDigit = false ∧ c ≠ '.')
    (hfind : findUnit units rest = some u) :
    findStamp units (pre ++ (ds ++ (fracPart fs ++ rest))) = some (ds, fs, u) := by
  rw [findStamp_skip _ hpre]
  obtain ⟨d, ds', rfl⟩ : ∃ d t, ds = d :: t := by
    cases ds with
    | nil => exact absurd rfl hds
    | cons d t => exact ⟨d, t, rfl⟩
  have hb := matchFrom_build hds hdig hfs hhead hfind
  rw [List.cons_append, findStamp, ← List.cons_append, hb]


/-! ### Arithmetic facts about the binary64 model -/

theorem ratFloor_eq_intFloor (q : ℚ) : q.floor = ⌊q⌋ := rfl

theorem pow2_eq_zpow (n : ℤ) : pow2 n = (2 : ℚ) ^ n := by
  unfold pow2
  split
  · next h =>
    rw [Nat.shiftLeft_eq, one_mul, Rat.mkRat_one]
    push_cast
    rw [← zpow_natCast (2 : ℚ) n.toNat, Int.toNat_of_nonneg h]
  · next h =>
    rw [Nat.shiftLeft_eq, one_mul, Rat.mkRat_eq_div]
    push_cast
    rw [one_div, ← zpow_natCast (2 : ℚ) (-n).toNat,
      Int.toNat_of_nonneg (by omega : (0 : ℤ) ≤ -n), ← zpow_neg, neg_neg]

theorem log2Fuel_le {k : ℕ} : ∀ {fuel n acc : ℕ}, n < 2 ^ (k + 1) →
    log2Fuel n fuel acc ≤ acc + k := by
  induction k with
  | zero =>
    intro fuel n acc h
    have hn : n ≤ 1 := by omega
    cases fuel with
    | zero => simp [log2Fuel]
    | succ f => simp [log2Fuel, hn]
  | succ k ih =>
    intro fuel n acc h
    cases fuel with
    | zero => simp [log2Fuel]
    | succ f =>
      rw [log2Fuel]
      split
      · omega
      · have h2 : n / 2 < 2 ^ (k + 1) := by
          rw [pow_succ] at h
          omega
        calc log2Fuel (n / 2) f (acc + 1) ≤ (acc + 1) + k := ih h2
          _ = acc + (k + 1) := by omega

theorem natLog2_le {n k : ℕ} (h : n < 2 ^ (k + 1)) : natLog2 n ≤ k := by
  simpa using @log2Fuel_le k n n 0 h

theorem natLog2_one : natLog2 1 = 0 := rfl

theorem ilog2_natCast_le {v : ℕ} {k : ℕ} (h : v < 2 ^ (k + 1)) :
    -1 ≤ ilog2 (v : ℚ) ∧ ilog2 (v : ℚ) ≤ k := by
  have hlog : natLog2 v ≤ k := natLog2_le h
  unfold ilog2
  rw [Rat.num_natCast, Rat.den_natCast, Int.natAbs_ofNat, natLog2_one]
  simp only [Nat.cast_zero, sub_zero]
  split <;> constructor <;> omega

theorem roundAt_int {q ulp : ℚ} (N : ℤ) (h : q / ulp = (N : ℚ)) :
    roundAt q ulp = N * ulp := by
  unfold roundAt
  rw [h, ratFloor_eq_intFloor, Int.floor_intCast, sub_self]
  rw [if_pos (by decide : (0 : ℚ) < mkRat 1 2)]

/-- Any natural below `2^53` (a 53-bit significand) is exactly
representable: binary64 rounding is the identity on it. -/
theorem roundFloat_natCast {v : ℕ} (h : v < 2 ^ 53) : roundFloat (v : ℚ) = (v : ℚ) := by
  rcases Nat.eq_zero_or_pos v with rfl | hv
  · simp [roundFloat]
  have hq0 : (0 : ℚ) < (v : ℚ) := by positivity
  obtain ⟨hE1, hE2⟩ := @ilog2_natCast_le v 52 h
  set E := ilog2 (v : ℚ) with hE
  have hm : ((52 - E).toNat : ℤ) = 52 - E := Int.toNat_of_nonneg (by omega)
  have hulp : ulpAt (v : ℚ) = (2 : ℚ) ^ (E - 52) := by
    unfold ulpAt
    rw [← hE, if_neg (by omega), pow2_eq_zpow]
  have hx : (v : ℚ) / (2 : ℚ) ^ (E - 52) = ((v * 2 ^ (52 - E).toNat : ℕ) : ℚ) := by
    push_cast
    rw [div_eq_mul_inv, ← zpow_neg, ← zpow_natCast (2 : ℚ) ((52 - E).toNat), hm]
    rw [neg_sub]
  rw [roundFloat, if_neg (not_le.mpr hq0), hulp]
  rw [roundAt_int (v * 2 ^ (52 - E).toNat : ℕ) (by rw [hx]; push_cast; ring)]
  push_cast
  rw [mul_assoc, ← zpow_natCast (2 : ℚ) ((52 - E).toNat), hm, ← zpow_add₀ (two_ne_zero)]
  simp


/-! ### Value and conversion lemmas -/

theorem decVal_nil (ds : List Char) : decVal ds [] = (digitsVal ds : ℚ) := by
  show mkRat (digitsVal ds) 1 + mkRat (digitsVal []) (10 ^ (0 : ℕ)) = _
  rw [show digitsVal [] = 0 from rfl]
  simp [Rat.mkRat_one]

theorem decVal_nonneg (ds fs : List Char) : 0 ≤ decVal ds fs := by
  unfold decVal
  rw [Rat.mkRat_eq_div, Rat.mkRat_eq_div]
  positivity

theorem ratTrunc_intCast (n : ℤ) : ratTrunc (n : ℚ) = n := by
  unfold ratTrunc
  rw [Rat.num_intCast, Rat.den_intCast]
  exact Int.tdiv_one n

theorem ratTrunc_natCast (n : ℕ) : ratTrunc (n : ℚ) = n := by
  rw [show ((n : ℚ)) = ((n : ℤ) : ℚ) by push_cast; rfl, ratTrunc_intCast]

theorem goInt_eq_ratTrunc {q : ℚ} (h0 : 0 ≤ q)
    (h : q < 9223372036854775808) : goInt q = ratTrunc q := by
  unfold goInt
  rw [if_neg]
  push_neg
  constructor <;> linarith

theorem big_le_pow2_1024 : (9223372036854775808 : ℚ) ≤ pow2 1024 := by decide

theorem not_overflow {q : ℚ} (h : q < (9223372036854775808 : ℚ)) :
    ¬ pow2 1024 ≤ q := fun hle => absurd (lt_of_lt_of_le h big_le_pow2_1024) (not_lt.mpr hle)

theorem headOk_single {a : Char} (h1 : a.isDigit = false) (h2 : a ≠ '.')
    (post : List Char) :
    ∀ c, (a :: post).head? = some c → c.isDigit = false ∧ c ≠ '.' := by
  intro c hc
  simp only [List.head?_cons, Option.some.injEq] at hc
  subst hc
  exact ⟨h1, h2⟩

theorem findUnit_time_s (post : List Char) :
    findUnit timeUnits ('s' :: post) = some ['s'] := by
  simp [findUnit, timeUnits, List.find?, startsWithChars]

theorem findUnit_time_ms (post : List Char) :
    findUnit timeUnits ('m' :: 's' :: post) = some ['m', 's'] := by
  simp [findUnit, timeUnits, List.find?, startsWithChars]

theorem findUnit_mem_KB (post : List Char) :
    findUnit memoryUnits ('K' :: 'B' :: post) = some ['K', 'B'] := by
  simp [findUnit, memoryUnits, List.find?, startsWithChars]

theorem findUnit_mem_MB (post : List Char) :
    findUnit memoryUnits ('M' :: 'B' :: post) = some ['M', 'B'] := by
  simp [findUnit, memoryUnits, List.find?, startsWithChars]

theorem findUnit_mem_GB (post : List Char) :
    findUnit memoryUnits ('G' :: 'B' :: post) = some ['G', 'B'] := by
  simp [findUnit, memoryUnits, List.find?, startsWithChars]


theorem parseTime_s_eval {ds fs : List Char} (h1 : ds ≠ [])
    (h2 : ∀ c ∈ ds, c.isDigit = true) (h3 : ∀ c ∈ fs, c.isDigit = true)
    (hrep : roundFloat (decVal ds fs) = decVal ds fs)
    (hprod : roundFloat (decVal ds fs * 1000) = decVal ds fs * 1000)
    (hlt : decVal ds fs * 1000 < 9223372036854775808) :
    ParseTime (String.mk (ds ++ (fracPart fs ++ ['s']))) =
      (ratTrunc (decVal ds fs * 1000), none) := by
  have hfind : findStamp timeUnits (String.mk (ds ++ (fracPart fs ++ ['s']))).data =
      some (ds, fs, ['s']) := by
    show findStamp timeUnits (ds ++ (fracPart fs ++ ['s'])) = _
    have hb := @findStamp_build timeUnits [] ds fs ['s'] ['s']
      (by simp) h1 h2 h3 (headOk_single (by decide) (by decide) [])
      (findUnit_time_s [])
    simpa using hb
  have hq0 : (0 : ℚ) ≤ decVal ds fs := decVal_nonneg ds fs
  have hqle : decVal ds fs ≤ decVal ds fs * 1000 :=
    le_mul_of_one_le_right hq0 (by norm_num)
  have hov : ¬ pow2 1024 ≤ roundFloat (decVal ds fs) := by
    rw [hrep]
    exact not_overflow (lt_of_le_of_lt hqle hlt)
  simp only [ParseTime, hfind]
  rw [if_neg hov, if_neg (by decide : ¬ (['s'] = ['m', 's'])), if_pos trivial]
  rw [hrep, hprod, goInt_eq_ratTrunc (by positivity) hlt]


theorem natCast_lt_big {v : ℕ} (h : v < 2 ^ 53) :
    (v : ℚ) < 9223372036854775808 := by
  have h1 : (v : ℚ) < ((2 ^ 53 : ℕ) : ℚ) := by exact_mod_cast h
  have h2 : ((2 ^ 53 : ℕ) : ℚ) < 9223372036854775808 := by push_cast; norm_num
  linarith

theorem parseTime_ms_eval {ds : List Char} (h1 : ds ≠ [])
    (h2 : ∀ c ∈ ds, c.isDigit = true) (h53 : digitsVal ds < 2 ^ 53) :
    ParseTime (String.mk (ds ++ ['m', 's'])) = ((digitsVal ds : ℤ), none) := by
  have hfind : findStamp timeUnits (String.mk (ds ++ ['m', 's'])).data =
      some (ds, [], ['m', 's']) := by
    show findStamp timeUnits (ds ++ ['m', 's']) = _
    have hb := @findStamp_build timeUnits [] ds [] ['m', 's'] ['m', 's']
      (by simp) h1 h2 (by simp)
      (headOk_single (by decide) (by decide) _) (findUnit_time_ms [])
    simpa [fracPart] using hb
  have hrep := roundFloat_natCast h53
  have hlt := natCast_lt_big h53
  have hov : ¬ pow2 1024 ≤ roundFloat (decVal ds []) := by
    rw [decVal_nil, hrep]
    exact not_overflow hlt
  simp only [ParseTime, hfind]
  rw [if_neg hov, if_pos trivial, decVal_nil, hrep, ratTrunc_natCast]
  rw [if_neg (by simp), goInt_eq_ratTrunc (by positivity) hlt, ratTrunc_natCast]

theorem parseTime_ms_split {ds fs : List Char} (h1 : ds ≠ [])
    (h2 : ∀ c ∈ ds, c.isDigit = true) (h3 : ∀ c ∈ fs, c.isDigit = true)
    (hfrac : (ratTrunc (roundFloat (decVal ds fs)) : ℚ) ≠ roundFloat (decVal ds fs))
    (hov : roundFloat (decVal ds fs) < 9223372036854775808) :
    ParseTime (String.mk (ds ++ (fracPart fs ++ ['m', 's']))) =
      (0, some .ErrorSplitAtomic) := by
  have hfind : findStamp timeUnits (String.mk (ds ++ (fracPart fs ++ ['m', 's']))).data =
      some (ds, fs, ['m', 's']) := by
    show findStamp timeUnits (ds ++ (fracPart fs ++ ['m', 's'])) = _
    have hb := @findStamp_build timeUnits [] ds fs ['m', 's'] ['m', 's']
      (by simp) h1 h2 h3 (headOk_single (by decide) (by decide) _) (findUnit_time_ms [])
    simpa using hb
  simp only [ParseTime, hfind]
  rw [if_neg (not_overflow hov), if_pos trivial, if_pos hfrac]

theorem parseMemory_KB_eval {ds : List Char} (h1 : ds ≠ [])
    (h2 : ∀ c ∈ ds, c.isDigit = true) (h53 : digitsVal ds < 2 ^ 53) :
    ParseMemory (String.mk (ds ++ ['K', 'B'])) = ((digitsVal ds : ℤ), none) := by
  have hfind : findStamp memoryUnits (String.mk (ds ++ ['K', 'B'])).data =
      some (ds, [], ['K', 'B']) := by
    show findStamp memoryUnits (ds ++ ['K', 'B']) = _
    have hb := @findStamp_build memoryUnits [] ds [] ['K', 'B'] ['K', 'B']
      (by simp) h1 h2 (by simp)
      (headOk_single (by decide) (by decide) _) (findUnit_mem_KB [])
    simpa [fracPart] using hb
  have hrep := roundFloat_natCast h53
  have hlt := natCast_lt_big h53
  have hov : ¬ pow2 1024 ≤ roundFloat (decVal ds []) := by
    rw [decVal_nil, hrep]
    exact not_overflow hlt
  simp only [ParseMemory, hfind]
  rw [if_neg hov, if_pos trivial, decVal_nil, hrep, ratTrunc_natCast]
  rw [if_neg (by simp), goInt_eq_ratTrunc (by positivity) hlt, ratTrunc_natCast]

theorem parseMemory_KB_split {ds fs : List Char} (h1 : ds ≠ [])
    (h2 : ∀ c ∈ ds, c.isDigit = true) (h3 : ∀ c ∈ fs, c.isDigit = true)
    (hfrac : (ratTrunc (roundFloat (decVal ds fs)) : ℚ) ≠ roundFloat (decVal ds fs))
    (hov : roundFloat (decVal ds fs) < 9223372036854775808) :
    ParseMemory (String.mk (ds ++ (fracPart fs ++ ['K', 'B']))) =
      (0, some .ErrorSplitAtomic) := by
  have hfind : findStamp memoryUnits (String.mk (ds ++ (fracPart fs ++ ['K', 'B']))).data =
      some (ds, fs, ['K', 'B']) := by
    show findStamp memoryUnits (ds ++ (fracPart fs ++ ['K', 'B'])) = _
    have hb := @findStamp_build memoryUnits [] ds fs ['K', 'B'] ['K', 'B']
      (by simp) h1 h2 h3 (headOk_single (by decide) (by decide) _) (findUnit_mem_KB [])
    simpa using hb
  simp only [ParseMemory, hfind]
  rw [if_neg (not_overflow hov), if_pos trivial, if_pos hfrac]

theorem parseMemory_MB_eval {ds fs : List Char} (h1 : ds ≠ [])
    (h2 : ∀ c ∈ ds, c.isDigit = true) (h3 : ∀ c ∈ fs, c.isDigit = true)
    (hrep : roundFloat (decVal ds fs) = decVal ds fs)
    (hprod : roundFloat (decVal ds fs * 1024) = decVal ds fs * 1024)
    (hlt : decVal ds fs * 1024 < 9223372036854775808) :
    ParseMemory (String.mk (ds ++ (fracPart fs ++ ['M', 'B']))) =
      (ratTrunc (decVal ds fs * 1024), none) := by
  have hfind : findStamp memoryUnits (String.mk (ds ++ (fracPart fs ++ ['M', 'B']))).data =
      some (ds, fs, ['M', 'B']) := by
    show findStamp memoryUnits (ds ++ (fracPart fs ++ ['M', 'B'])) = _
    have hb := @findStamp_build memoryUnits [] ds fs ['M', 'B'] ['M', 'B']
      (by simp) h1 h2 h3 (headOk_single (by decide) (by decide) _) (findUnit_mem_MB [])
    simpa using hb
  have hq0 : (0 : ℚ) ≤ decVal ds fs := decVal_nonneg ds fs
  have hqle : decVal ds fs ≤ decVal ds fs * 1024 :=
    le_mul_of_one_le_right hq0 (by norm_num)
  have hov : ¬ pow2 1024 ≤ roundFloat (decVal ds fs) := by
    rw [hrep]
    exact not_overflow (lt_of_le_of_lt hqle hlt)
  simp only [ParseMemory, hfind]
  rw [if_neg hov, if_neg (by decide : ¬ (['M', 'B'] = ['K', 'B'])), if_pos trivial]
  rw [hrep, hprod, goInt_eq_ratTrunc (by positivity) hlt]

theorem parseMemory_GB_eval {ds fs : List Char} (h1 : ds ≠ [])
    (h2 : ∀ c ∈ ds, c.isDigit = true) (h3 : ∀ c ∈ fs, c.isDigit = true)
    (hrep : roundFloat (decVal ds fs) = decVal ds fs)
    (hprod1 : roundFloat (decVal ds fs * 1024) = decVal ds fs * 1024)
    (hprod2 : roundFloat (decVal ds fs * 1024 * 1024) = decVal ds fs * 1024 * 1024)
    (hlt : decVal ds fs * 1024 * 1024 < 9223372036854775808) :
    ParseMemory (String.mk (ds ++ (fracPart fs ++ ['G', 'B']))) =
      (ratTrunc (decVal ds fs * 1024 * 1024), none) := by
  have hfind : findStamp memoryUnits (String.mk (ds ++ (fracPart fs ++ ['G', 'B']))).data =
      some (ds, fs, ['G', 'B']) := by
    show findStamp memoryUnits (ds ++ (fracPart fs ++ ['G', 'B'])) = _
    have hb := @findStamp_build memoryUnits [] ds fs ['G', 'B'] ['G', 'B']
      (by simp) h1 h2 h3 (headOk_single (by decide) (by decide) _) (findUnit_mem_GB [])
    simpa using hb
  have hq0 : (0 : ℚ) ≤ decVal ds fs := decVal_nonneg ds fs
  have hqle : decVal ds fs ≤ decVal ds fs * 1024 * 1024 := by
    nlinarith
  have hov : ¬ pow2 1024 ≤ roundFloat (decVal ds fs) := by
    rw [hrep]
    exact not_overflow (lt_of_le_of_lt hqle hlt)
  simp only [ParseMemory, hfind]
  rw [if_neg hov, if_neg (by decide : ¬ (['G', 'B'] = ['K', 'B'])),
    if_neg (by decide : ¬ (['G', 'B'] = ['M', 'B'])), if_pos trivial]
  rw [hrep, hprod1, hprod2, goInt_eq_ratTrunc (by positivity) hlt]


theorem parseTime_surround {pre post ds fs u : List Char}
    (hpre : ∀ c ∈ pre, c.isDigit = false)
    (h1 : ds ≠ []) (h2 : ∀ c ∈ ds, c.isDigit = true)
    (h3 : ∀ c ∈ fs, c.isDigit = true)
    (hu : u = ['m', 's'] ∨ u = ['s']) :
    ParseTime (String.mk (pre ++ (ds ++ (fracPart fs ++ (u ++ post))))) =
      ParseTime (String.mk (ds ++ (fracPart fs ++ u))) := by
  rcases hu with rfl | rfl
  · have hfind1 : findStamp timeUnits
        (String.mk (pre ++ (ds ++ (fracPart fs ++ (['m', 's'] ++ post))))).data =
        some (ds, fs, ['m', 's']) :=
      findStamp_build hpre h1 h2 h3
        (headOk_single (by decide) (by decide) _) (findUnit_time_ms post)
    have hfind2 : findStamp timeUnits (String.mk (ds ++ (fracPart fs ++ ['m', 's']))).data =
        some (ds, fs, ['m', 's']) := by
      have hb := @findStamp_build timeUnits [] ds fs ['m', 's'] ['m', 's']
        (by simp) h1 h2 h3 (headOk_single (by decide) (by decide) _) (findUnit_time_ms [])
      simpa using hb
    simp only [ParseTime, hfind1, hfind2]
  · have hfind1 : findStamp timeUnits
        (String.mk (pre ++ (ds ++ (fracPart fs ++ (['s'] ++ post))))).data =
        some (ds, fs, ['s']) :=
      findStamp_build hpre h1 h2 h3
        (headOk_single (by decide) (by decide) _) (findUnit_time_s post)
    have hfind2 : findStamp timeUnits (String.mk (ds ++ (fracPart fs ++ ['s']))).data =
        some (ds, fs, ['s']) := by
      have hb := @findStamp_build timeUnits [] ds fs ['s'] ['s']
        (by simp) h1 h2 h3 (headOk_single (by decide) (by decide) _) (findUnit_time_s [])
      simpa using hb
    simp only [ParseTime, hfind1, hfind2]

theorem parseMemory_surround {pre post ds fs u : List Char}
    (hpre : ∀ c ∈ pre, c.isDigit = false)
    (h1 : ds ≠ []) (h2 : ∀ c ∈ ds, c.isDigit = true)
    (h3 : ∀ c ∈ fs, c.isDigit = true)
    (hu : u = ['K', 'B'] ∨ u = ['M', 'B'] ∨ u = ['G', 'B']) :
    ParseMemory (String.mk (pre ++ (ds ++ (fracPart fs ++ (u ++ post))))) =
      ParseMemory (String.mk (ds ++ (fracPart fs ++ u))) := by
  rcases hu with rfl | rfl | rfl
  · have hfind1 : findStamp memoryUnits
        (String.mk (pre ++ (ds ++ (fracPart fs ++ (['K', 'B'] ++ post))))).data =
        some (ds, fs, ['K', 'B']) :=
      findStamp_build hpre h1 h2 h3
        (headOk_single (by decide) (by decide) _) (findUnit_mem_KB post)
    have hfind2 : findStamp memoryUnits (String.mk (ds ++ (fracPart fs ++ ['K', 'B']))).data =
        some (ds, fs, ['K', 'B']) := by
      have hb := @findStamp_build memoryUnits [] ds fs ['K', 'B'] ['K', 'B']
        (by simp) h1 h2 h3 (headOk_single (by decide) (by decide) _) (findUnit_mem_KB [])
      simpa using hb
    simp only [ParseMemory, hfind1, hfind2]
  · have hfind1 : findStamp memoryUnits
        (String.mk (pre ++ (ds ++ (fracPart fs ++ (['M', 'B'] ++ post))))).data =
        some (ds, fs, ['M', 'B']) :=
      findStamp_build hpre h1 h2 h3
        (headOk_single (by decide) (by decide) _) (findUnit_mem_MB post)
    have hfind2 : findStamp memoryUnits (String.mk (ds ++ (fracPart fs ++ ['M', 'B']))).data =
        some (ds, fs, ['M', 'B']) := by
      have hb := @findStamp_build memoryUnits [] ds fs ['M', 'B'] ['M', 'B']
        (by simp) h1 h2 h3 (headOk_single (by decide) (by decide) _) (findUnit_mem_MB [])
      simpa using hb
    simp only [ParseMemory, hfind1, hfind2]
  · have hfind1 : findStamp memoryUnits
        (String.mk (pre ++ (ds ++ (fracPart fs ++ (['G', 'B'] ++ post))))).data =
        some (ds, fs, ['G', 'B']) :=
      findStamp_build hpre h1 h2 h3
        (headOk_single (by decide) (by decide) _) (findUnit_mem_GB post)
    have hfind2 : findStamp memoryUnits (String.mk (ds ++ (fracPart fs ++ ['G', 'B']))).data =
        some (ds, fs, ['G', 'B']) := by
      have hb := @findStamp_build memoryUnits [] ds fs ['G', 'B'] ['G', 'B']
        (by simp) h1 h2 h3 (headOk_single (by decide) (by decide) _) (findUnit_mem_GB [])
      simpa using hb
    simp only [ParseMemory, hfind1, hfind2]

/-! ### Orchestrator lemmas -/

theorem goUint32_lt (x : ℤ) : goUint32 x < 2 ^ 32 := by
  unfold goUint32
  have h1 : 0 ≤ x % 4294967296 := Int.emod_nonneg x (by norm_num)
  have h2 : x % 4294967296 < 4294967296 := Int.emod_lt_of_pos x (by norm_num)
  omega

theorem goUint8_lt (x : ℤ) : goUint8 x < 2 ^ 8 := by
  unfold goUint8
  have h1 : 0 ≤ x % 256 := Int.emod_nonneg x (by norm_num)
  have h2 : x % 256 < 256 := Int.emod_lt_of_pos x (by norm_num)
  omega

theorem goUint32_mod (x : ℤ) : goUint32 (x % 4294967296) = goUint32 x := by
  unfold goUint32
  rw [Int.emod_emod_of_dvd x dvd_rfl]

theorem goUint8_mod (x : ℤ) : goUint8 (x % 256) = goUint8 x := by
  unfold goUint8
  rw [Int.emod_emod_of_dvd x dvd_rfl]

theorem goUint32_eq_self {x : ℤ} (h0 : 0 ≤ x) (h : x < 2 ^ 32) :
    ((goUint32 x : ℕ) : ℤ) = x := by
  unfold goUint32
  rw [Int.emod_eq_of_lt h0 (by omega), Int.toNat_of_nonneg h0]

theorem goUint8_eq_self {x : ℤ} (h0 : 0 ≤ x) (h : x < 2 ^ 8) :
    ((goUint8 x : ℕ) : ℤ) = x := by
  unfold goUint8
  rw [Int.emod_eq_of_lt h0 (by omega), Int.toNat_of_nonneg h0]

theorem NewParameters_goUint (s m : ℤ) (t l : ℤ) (so : List ℕ) :
    NewParameters (goUint32 s) (goUint32 m) (goUint8 t) (goUint32 l) so =
      ({ Time := goUint32 s, Memory := goUint32 m, Threads := goUint8 t,
         Length := goUint32 l, Salt := so }, none) := by
  unfold NewParameters
  rw [if_pos ⟨goUint32_lt s, goUint32_lt m, goUint8_lt t, goUint32_lt l⟩]

theorem generateHash_eq (params : Parameters) (pw : List ℕ) (dur : ℕ) :
    generateHash params pw dur =
      ({ Time := params.Time, Threads := params.Threads, Memory := params.Memory,
         Length := params.Length, Key := bytesToStr pw,
         Hash := String.mk (encodedHash pw params),
         Characters := (encodedHash pw params).length,
         Duration := dur, Salt := bytesToStr params.Salt }, none) := rfl

theorem GenerateHash_eq (seconds threads memory length : ℤ) (key : String)
    (so : List ℕ) (dur : ℕ) :
    GenerateHash seconds threads memory length key so dur =
      generateHash
        { Time := goUint32 seconds, Memory := goUint32 memory,
          Threads := goUint8 threads, Length := goUint32 length, Salt := so }
        (strBytes key) dur := by
  simp only [GenerateHash, NewParameters_goUint]

theorem GenerateHashWithSalt_eq (seconds threads memory length : ℤ) (key salt : String)
    (so : List ℕ) (dur : ℕ) :
    GenerateHashWithSalt seconds threads memory length key salt so dur =
      generateHash
        { Time := goUint32 seconds, Memory := goUint32 memory,
          Threads := goUint8 threads, Length := goUint32 length,
          Salt := strBytes salt }
        (strBytes key) dur := by
  simp only [GenerateHashWithSalt, NewParameters_goUint]

theorem bytesToStr_strBytes (s : String) : bytesToStr (strBytes s) = s := by
  unfold bytesToStr strBytes
  rw [List.map_map]
  have : (Char.ofNat ∘ Char.toNat) = id := by
    funext c
    exact Char.ofNat_toNat c
  rw [this, List.map_id]

/-! ### Claim theorems -/

/-- Claim C1 (amended).  The parse functions fail only with
`ErrorMalformedStamp`, `ErrorSplitAtomic`, or the `strconv` range error:
whenever the stamp regex does not match (unit suffix absent or prefix not
a decimal) the result is `ErrorMalformedStamp`, and the only other error
ever returned is the range error, which occurs exactly when the matched
number overflows float64 (rounds to at least `2^1024`). -/
theorem claim_C1_amended :
    (∀ s : String, findStamp timeUnits s.data = none →
      ParseTime s = (0, some .ErrorMalformedStamp))
    ∧ (∀ s : String, findStamp memoryUnits s.data = none →
      ParseMemory s = (0, some .ErrorMalformedStamp))
    ∧ (∀ (s : String) (ds fs u : List Char), findStamp timeUnits s.data = some (ds, fs, u) →
      (ParseTime s = (0, some .ErrRange) ↔ pow2 1024 ≤ roundFloat (decVal ds fs)))
    ∧ (∀ (s : String) (ds fs u : List Char), findStamp memoryUnits s.data = some (ds, fs, u) →
      (ParseMemory s = (0, some .ErrRange) ↔ pow2 1024 ≤ roundFloat (decVal ds fs))) := by
  refine ⟨fun s h => by simp only [ParseTime, h], fun s h => by simp only [ParseMemory, h],
    fun s ds fs u h => ?_, fun s ds fs u h => ?_⟩
  · simp only [ParseTime, h]
    by_cases hov : pow2 1024 ≤ roundFloat (decVal ds fs)
    · simp [hov]
    · rw [if_neg hov]
      constructor
      · intro heq
        exfalso
        revert heq
        split_ifs <;> simp
      · intro h2
        exact absurd h2 hov
  · simp only [ParseMemory, h]
    by_cases hov : pow2 1024 ≤ roundFloat (decVal ds fs)
    · simp [hov]
    · rw [if_neg hov]
      constructor
      · intro heq
        exfalso
        revert heq
        split_ifs <;> simp
      · intro h2
        exact absurd h2 hov

/-- Claim C1, witness: on the unit-less stamp "32" the regex does not
match and `ParseTime` returns `ErrorMalformedStamp`. -/
theorem claim_C1_witness :
    ParseTime "32" = (0, some .ErrorMalformedStamp) :=
  claim_C1_amended.1 "32" (by decide)

/-- Claim C1, counterexample to the original claim: a stamp whose numeric
prefix overflows float64 makes `ParseTime` return the propagated
`strconv.ParseFloat` range error — a generic numeric-parse error that is
neither of the two declared error kinds. -/
theorem claim_C1_counterexample :
    ParseTime "1000000000000000000000000000000000000000000000000000000000000000000000000000000000000000000000000000000000000000000000000000000000000000000000000000000000000000000000000000000000000000000000000000000000000000000000000000000000000000000000000000000000000000000000000000000000000000000000000000000000000000000000s" = (0, some .ErrRange)
    ∧ ParseErr.ErrRange ≠ ParseErr.ErrorMalformedStamp
    ∧ ParseErr.ErrRange ≠ ParseErr.ErrorSplitAtomic := by
  refine ⟨by decide, by decide, by decide⟩


/-- Claim C3 (amended).  For stamps `<number>s` in which no binary64
rounding occurs (the decimal value and the float64 product value×1000
are exactly representable) and the product fits int64, `ParseTime`
returns round-toward-zero(value × 1000); for stamps `<number>ms` with an
integer value below `2^53`, `ParseTime` returns that integer directly;
in particular `ParseTime "1s" = 1000`, `ParseTime "500ms" = 500` and
`ParseTime "0.75s" = 750`.  (The exactness restrictions are forced by
the float64 arithmetic of the Go code — see the counterexample.) -/
theorem claim_C3_amended :
    (∀ ds fs : List Char, ds ≠ [] → (∀ c ∈ ds, c.isDigit = true) →
      (∀ c ∈ fs, c.isDigit = true) →
      roundFloat (decVal ds fs) = decVal ds fs →
      roundFloat (decVal ds fs * 1000) = decVal ds fs * 1000 →
      decVal ds fs * 1000 < 9223372036854775808 →
      ParseTime (String.mk (ds ++ (fracPart fs ++ ['s']))) =
        (ratTrunc (decVal ds fs * 1000), none))
    ∧ (∀ ds : List Char, ds ≠ [] → (∀ c ∈ ds, c.isDigit = true) →
      digitsVal ds < 2 ^ 53 →
      ParseTime (String.mk (ds ++ ['m', 's'])) = ((digitsVal ds : ℤ), none))
    ∧ ParseTime "1s" = (1000, none)
    ∧ ParseTime "500ms" = (500, none)
    ∧ ParseTime "0.75s" = (750, none) := by
  refine ⟨fun ds fs h1 h2 h3 hrep hprod hlt => parseTime_s_eval h1 h2 h3 hrep hprod hlt,
    fun ds h1 h2 h53 => parseTime_ms_eval h1 h2 h53, by decide, by decide, by decide⟩

/-- Claim C3, witness: the universal parts applied to "0.75s" and
"500ms", all hypotheses discharged by evaluation. -/
theorem claim_C3_witness :
    ParseTime (String.mk (['0'] ++ (fracPart ['7', '5'] ++ ['s']))) =
      (ratTrunc (decVal ['0'] ['7', '5'] * 1000), none)
    ∧ ParseTime (String.mk (['5', '0', '0'] ++ ['m', 's'])) =
      ((digitsVal ['5', '0', '0'] : ℤ), none) :=
  ⟨claim_C3_amended.1 ['0'] ['7', '5'] (by decide) (by decide) (by decide)
      (by decide) (by decide) (by decide),
    claim_C3_amended.2.1 ['5', '0', '0'] (by decide) (by decide) (by decide)⟩

/-- Claim C3, counterexample to the original claim: the value 8.165 is
not exactly representable in binary64 (it parses to slightly less than
8.165), so the Go computation `int(t * 1000)` yields 8164, while
round-toward-zero(8.165 × 1000) = 8165. -/
theorem claim_C3_counterexample :
    ParseTime "8.165s" = (8164, none)
    ∧ ratTrunc (decVal ['8'] ['1', '6', '5'] * 1000) = 8165
    ∧ (8164 : ℤ) ≠ 8165 := by
  refine ⟨by decide, by decide, by decide⟩

/-- Claim C4 (amended).  For stamps `<number>KB` with an integer value
below `2^53`, `ParseMemory` returns that integer directly; for
`<number>MB` (resp. `<number>GB`) in which no binary64 rounding occurs
and the products fit int64, it returns round-toward-zero(value × 1024)
(resp. round-toward-zero(value × 1024 × 1024)); `ParseMemory "10B"`
fails with `ErrorMalformedStamp`; and the spec's examples evaluate as
stated.  (The size restrictions are forced by the float64 arithmetic of
the Go code — see the counterexample.) -/
theorem claim_C4_amended :
    (∀ ds : List Char, ds ≠ [] → (∀ c ∈ ds, c.isDigit = true) →
      digitsVal ds < 2 ^ 53 →
      ParseMemory (String.mk (ds ++ ['K', 'B'])) = ((digitsVal ds : ℤ), none))
    ∧ (∀ ds fs : List Char, ds ≠ [] → (∀ c ∈ ds, c.isDigit = true) →
      (∀ c ∈ fs, c.isDigit = true) →
      roundFloat (decVal ds fs) = decVal ds fs →
      roundFloat (decVal ds fs * 1024) = decVal ds fs * 1024 →
      decVal ds fs * 1024 < 9223372036854775808 →
      ParseMemory (String.mk (ds ++ (fracPart fs ++ ['M', 'B']))) =
        (ratTrunc (decVal ds fs * 1024), none))
    ∧ (∀ ds fs : List Char, ds ≠ [] → (∀ c ∈ ds, c.isDigit = true) →
      (∀ c ∈ fs, c.isDigit = true) →
      roundFloat (decVal ds fs) = decVal ds fs →
      roundFloat (decVal ds fs * 1024) = decVal ds fs * 1024 →
      roundFloat (decVal ds fs * 1024 * 1024) = decVal ds fs * 1024 * 1024 →
      decVal ds fs * 1024 * 1024 < 9223372036854775808 →
      ParseMemory (String.mk (ds ++ (fracPart fs ++ ['G', 'B']))) =
        (ratTrunc (decVal ds fs * 1024 * 1024), none))
    ∧ ParseMemory "10B" = (0, some .ErrorMalformedStamp)
    ∧ ParseMemory "500KB" = (500, none)
    ∧ ParseMemory "10MB" = (10240, none)
    ∧ ParseMemory "1GB" = (1048576, none)
    ∧ ParseMemory "0.5MB" = (512, none)
    ∧ ParseMemory "0.75GB" = (786432, none) := by
  refine ⟨fun ds h1 h2 h53 => parseMemory_KB_eval h1 h2 h53,
    fun ds fs h1 h2 h3 hrep hprod hlt => parseMemory_MB_eval h1 h2 h3 hrep hprod hlt,
    fun ds fs h1 h2 h3 hrep hp1 hp2 hlt => parseMemory_GB_eval h1 h2 h3 hrep hp1 hp2 hlt,
    by decide, by decide, by decide, by decide, by decide, by decide⟩

/-- Claim C4, witness: the universal parts applied to "500KB", "0.5MB"
and "0.75GB", all hypotheses discharged by evaluation. -/
theorem claim_C4_witness :
    ParseMemory (String.mk (['5', '0', '0'] ++ ['K', 'B'])) =
      ((digitsVal ['5', '0', '0'] : ℤ), none)
    ∧ ParseMemory (String.mk (['0'] ++ (fracPart ['5'] ++ ['M', 'B']))) =
      (ratTrunc (decVal ['0'] ['5'] * 1024), none)
    ∧ ParseMemory (String.mk (['0'] ++ (fracPart ['7', '5'] ++ ['G', 'B']))) =
      (ratTrunc (decVal ['0'] ['7', '5'] * 1024 * 1024), none) :=
  ⟨claim_C4_amended.1 ['5', '0', '0'] (by decide) (by decide) (by decide),
    claim_C4_amended.2.1 ['0'] ['5'] (by decide) (by decide) (by decide)
      (by decide) (by decide) (by decide),
    claim_C4_amended.2.2.1 ['0'] ['7', '5'] (by decide) (by decide) (by decide)
      (by decide) (by decide) (by decide) (by decide)⟩

/-- Claim C4, counterexample to the original claim: the integer
`2^53 + 1 = 9007199254740993` does not fit a float64 significand, so
`ParseMemory "9007199254740993KB"` returns `9007199254740992` instead of
the integer itself. -/
theorem claim_C4_counterexample :
    ParseMemory "9007199254740993KB" = (9007199254740992, none)
    ∧ digitsVal ['9', '0', '0', '7', '1', '9', '9', '2', '5', '4', '7', '4', '0',
        '9', '9', '3'] = 9007199254740993
    ∧ (9007199254740992 : ℤ) ≠ 9007199254740993 := by
  refine ⟨by decide, by decide, by decide⟩

/-- Claim C5 (amended).  For otherwise well-formed `ms` (resp. `KB`)
stamps, the parser fails with `ErrorSplitAtomic` exactly on the
fractionality of the float64 value of the number: whenever the binary64
rounding of the decimal value has a non-zero fractional part (in
particular whenever the value has a fractional part and is exactly
representable), the result is `ErrorSplitAtomic`; `ParseTime "0.5ms"`
and `ParseMemory "0.5KB"` fail so.  (That the test applies to the
rounded value, not the written decimal, is forced by the
counterexample.) -/
theorem claim_C5_amended :
    (∀ ds fs : List Char, ds ≠ [] → (∀ c ∈ ds, c.isDigit = true) →
      (∀ c ∈ fs, c.isDigit = true) →
      (ratTrunc (roundFloat (decVal ds fs)) : ℚ) ≠ roundFloat (decVal ds fs) →
      roundFloat (decVal ds fs) < 9223372036854775808 →
      ParseTime (String.mk (ds ++ (fracPart fs ++ ['m', 's']))) =
        (0, some .ErrorSplitAtomic))
    ∧ (∀ ds fs : List Char, ds ≠ [] → (∀ c ∈ ds, c.isDigit = true) →
      (∀ c ∈ fs, c.isDigit = true) →
      (ratTrunc (roundFloat (decVal ds fs)) : ℚ) ≠ roundFloat (decVal ds fs) →
      roundFloat (decVal ds fs) < 9223372036854775808 →
      ParseMemory (String.mk (ds ++ (fracPart fs ++ ['K', 'B']))) =
        (0, some .ErrorSplitAtomic))
    ∧ ParseTime "0.5ms" = (0, some .ErrorSplitAtomic)
    ∧ ParseMemory "0.5KB" = (0, some .ErrorSplitAtomic) := by
  refine ⟨fun ds fs h1 h2 h3 hfrac hov => parseTime_ms_split h1 h2 h3 hfrac hov,
    fun ds fs h1 h2 h3 hfrac hov => parseMemory_KB_split h1 h2 h3 hfrac hov,
    by decide, by decide⟩

/-- Claim C5, witness: the universal parts applied to "0.5ms" and
"0.5KB", all hypotheses discharged by evaluation. -/
theorem claim_C5_witness :
    ParseTime (String.mk (['0'] ++ (fracPart ['5'] ++ ['m', 's']))) =
      (0, some .ErrorSplitAtomic)
    ∧ ParseMemory (String.mk (['0'] ++ (fracPart ['5'] ++ ['K', 'B']))) =
      (0, some .ErrorSplitAtomic) :=
  ⟨claim_C5_amended.1 ['0'] ['5'] (by decide) (by decide) (by decide)
      (by decide) (by decide),
    claim_C5_amended.2.1 ['0'] ['5'] (by decide) (by decide) (by decide)
      (by decide) (by decide)⟩

/-- Claim C5, counterexample to the original claim: the decimal
`9007199254740992.5` has a non-zero fractional part as written, but its
binary64 rounding is the integer `9007199254740992`, so
`ParseMemory "9007199254740992.5KB"` succeeds instead of failing with
`ErrorSplitAtomic`. -/
theorem claim_C5_counterexample :
    ParseMemory "9007199254740992.5KB" = (9007199254740992, none)
    ∧ (none : Option ParseErr) ≠ some .ErrorSplitAtomic := by
  refine ⟨by decide, by decide⟩

/-- Claim C10 (amended).  Stamp matching is unanchored: on an input of
the form `pre ++ stamp ++ post` where `pre` contains no digits and
`stamp` is `<number>` followed by a unit, the parse result is exactly
that of the stamp alone — surrounding characters are ignored — though
the leftmost match is still subject to the usual unit semantics and can
fail (with `ErrorSplitAtomic` or the range error) rather than succeed;
in particular text around "1s" still parses to 1000. -/
theorem claim_C10_amended :
    (∀ pre post ds fs u : List Char, (∀ c ∈ pre, c.isDigit = false) →
      ds ≠ [] → (∀ c ∈ ds, c.isDigit = true) → (∀ c ∈ fs, c.isDigit = true) →
      u = ['m', 's'] ∨ u = ['s'] →
      ParseTime (String.mk (pre ++ (ds ++ (fracPart fs ++ (u ++ post))))) =
        ParseTime (String.mk (ds ++ (fracPart fs ++ u))))
    ∧ (∀ pre post ds fs u : List Char, (∀ c ∈ pre, c.isDigit = false) →
      ds ≠ [] → (∀ c ∈ ds, c.isDigit = true) → (∀ c ∈ fs, c.isDigit = true) →
      u = ['K', 'B'] ∨ u = ['M', 'B'] ∨ u = ['G', 'B'] →
      ParseMemory (String.mk (pre ++ (ds ++ (fracPart fs ++ (u ++ post))))) =
        ParseMemory (String.mk (ds ++ (fracPart fs ++ u))))
    ∧ ParseTime "abc1sxyz" = (1000, none)
    ∧ ParseMemory "abc500KBxyz" = (500, none) := by
  refine ⟨fun pre post ds fs u hpre h1 h2 h3 hu => parseTime_surround hpre h1 h2 h3 hu,
    fun pre post ds fs u hpre h1 h2 h3 hu => parseMemory_surround hpre h1 h2 h3 hu,
    by decide, by decide⟩

/-- Claim C10, witness: the time part applied to pre = "abc",
post = "xyz" around the stamp "1s". -/
theorem claim_C10_witness :
    ParseTime (String.mk (['a', 'b', 'c'] ++ (['1'] ++ (fracPart [] ++ (['s'] ++ ['x', 'y', 'z']))))) =
      ParseTime (String.mk (['1'] ++ (fracPart [] ++ ['s']))) :=
  claim_C10_amended.1 ['a', 'b', 'c'] ['x', 'y', 'z'] ['1'] [] ['s']
    (by decide) (by decide) (by decide) (by decide) (Or.inr rfl)

/-- Claim C10, counterexample to the original claim: "x0.5ms" contains a
substring matching the time-stamp pattern (the matcher finds it), yet
`ParseTime` does not succeed — the leftmost match "0.5ms" fails with
`ErrorSplitAtomic`. -/
theorem claim_C10_counterexample :
    ParseTime "x0.5ms" = (0, some .ErrorSplitAtomic)
    ∧ findStamp timeUnits "x0.5ms".data ≠ none := by
  refine ⟨by decide, by decide⟩


/-- Claim C2 (amended).  `GenerateHash` and `GenerateHashWithSalt` do
not validate that the `int` parameters fit the primitive's unsigned
types: Go's conversions `uint8(threads)` / `uint32(...)` reduce the
arguments modulo `2^8` / `2^32` before the primitive ever sees them, so
a call with out-of-range parameters behaves exactly like the call with
the reduced parameters — out-of-range values are silently wrapped, not
rejected with a `ParameterError` by this code. -/
theorem claim_C2_amended :
    (∀ (seconds threads memory length : ℤ) (key : String) (so : List ℕ) (dur : ℕ),
      GenerateHash seconds threads memory length key so dur =
        GenerateHash (seconds % 4294967296) (threads % 256) (memory % 4294967296)
          (length % 4294967296) key so dur)
    ∧ (∀ (seconds threads memory length : ℤ) (key salt : String) (so : List ℕ) (dur : ℕ),
      GenerateHashWithSalt seconds threads memory length key salt so dur =
        GenerateHashWithSalt (seconds % 4294967296) (threads % 256) (memory % 4294967296)
          (length % 4294967296) key salt so dur) := by
  constructor
  · intro seconds threads memory length key so dur
    simp only [GenerateHash, goUint32_mod, goUint8_mod]
  · intro seconds threads memory length key salt so dur
    simp only [GenerateHashWithSalt, goUint32_mod, goUint8_mod]

/-- Claim C2, witness: a call with `threads = 257` equals the call with
`threads = 257 % 256 = 1`. -/
theorem claim_C2_witness :
    GenerateHash 1 257 65536 8 "pw" [1] 0 =
      GenerateHash (1 % 4294967296) (257 % 256) (65536 % 4294967296)
        (8 % 4294967296) "pw" [1] 0 :=
  claim_C2_amended.1 1 257 65536 8 "pw" [1] 0

/-- Claim C2, counterexample to the original claim: `threads = 257` does
not fit an 8-bit unsigned value, yet the call succeeds (no
`ParameterError`) — the thread count is silently wrapped to 1. -/
theorem claim_C2_counterexample :
    (GenerateHash 1 257 65536 8 "pw" [1] 0).2 = none
    ∧ (GenerateHash 1 257 65536 8 "pw" [1] 0).1.Threads = 1
    ∧ (257 : ℤ) ≠ 1 ∧ (2 ^ 8 : ℤ) ≤ 257 := by
  refine ⟨by decide, by decide, by decide, by decide⟩

/-- Claim C6 (amended).  Every successful call to `GenerateHash` or
`GenerateHashWithSalt` returns a `ResultSet` with
`Characters = length Hash` and `Duration ≥ 0`; and whenever the `int`
inputs are within the primitive's unsigned ranges (`0 ≤ time, memory,
length < 2^32`, `0 ≤ threads < 2^8`), the `Time`, `Threads`, `Memory`,
`Length` and `Key` fields equal the corresponding inputs.  (The range
restriction on the field equations is forced by the wrapping
conversions — see the counterexample.) -/
theorem claim_C6_amended :
    (∀ (seconds threads memory length : ℤ) (key : String) (so : List ℕ) (dur : ℕ),
      (GenerateHash seconds threads memory length key so dur).2 = none →
      (GenerateHash seconds threads memory length key so dur).1.Characters =
        ((GenerateHash seconds threads memory length key so dur).1.Hash.length : ℤ)
      ∧ 0 ≤ (GenerateHash seconds threads memory length key so dur).1.Duration)
    ∧ (∀ (seconds threads memory length : ℤ) (key salt : String) (so : List ℕ) (dur : ℕ),
      (GenerateHashWithSalt seconds threads memory length key salt so dur).2 = none →
      (GenerateHashWithSalt seconds threads memory length key salt so dur).1.Characters =
        ((GenerateHashWithSalt seconds threads memory length key salt so dur).1.Hash.length : ℤ)
      ∧ 0 ≤ (GenerateHashWithSalt seconds threads memory length key salt so dur).1.Duration)
    ∧ (∀ (seconds threads memory length : ℤ) (key : String) (so : List ℕ) (dur : ℕ),
      0 ≤ seconds → seconds < 2 ^ 32 → 0 ≤ threads → threads < 2 ^ 8 →
      0 ≤ memory → memory < 2 ^ 32 → 0 ≤ length → length < 2 ^ 32 →
      (GenerateHash seconds threads memory length key so dur).2 = none →
      (GenerateHash seconds threads memory length key so dur).1.Time = seconds
      ∧ (GenerateHash seconds threads memory length key so dur).1.Threads = threads
      ∧ (GenerateHash seconds threads memory length key so dur).1.Memory = memory
      ∧ (GenerateHash seconds threads memory length key so dur).1.Length = length
      ∧ (GenerateHash seconds threads memory length key so dur).1.Key = key)
    ∧ (∀ (seconds threads memory length : ℤ) (key salt : String) (so : List ℕ) (dur : ℕ),
      0 ≤ seconds → seconds < 2 ^ 32 → 0 ≤ threads → threads < 2 ^ 8 →
      0 ≤ memory → memory < 2 ^ 32 → 0 ≤ length → length < 2 ^ 32 →
      (GenerateHashWithSalt seconds threads memory length key salt so dur).2 = none →
      (GenerateHashWithSalt seconds threads memory length key salt so dur).1.Time = seconds
      ∧ (GenerateHashWithSalt seconds threads memory length key salt so dur).1.Threads = threads
      ∧ (GenerateHashWithSalt seconds threads memory length key salt so dur).1.Memory = memory
      ∧ (GenerateHashWithSalt seconds threads memory length key salt so dur).1.Length = length
      ∧ (GenerateHashWithSalt seconds threads memory length key salt so dur).1.Key = key) := by
  refine ⟨?_, ?_, ?_, ?_⟩
  · intro seconds threads memory length key so dur _
    rw [GenerateHash_eq, generateHash_eq]
    exact ⟨rfl, Int.natCast_nonneg dur⟩
  · intro seconds threads memory length key salt so dur _
    rw [GenerateHashWithSalt_eq, generateHash_eq]
    exact ⟨rfl, Int.natCast_nonneg dur⟩
  · intro seconds threads memory length key so dur hs1 hs2 ht1 ht2 hm1 hm2 hl1 hl2 _
    rw [GenerateHash_eq, generateHash_eq]
    exact ⟨goUint32_eq_self hs1 hs2, goUint8_eq_self ht1 ht2,
      goUint32_eq_self hm1 hm2, goUint32_eq_self hl1 hl2, bytesToStr_strBytes key⟩
  · intro seconds threads memory length key salt so dur hs1 hs2 ht1 ht2 hm1 hm2 hl1 hl2 _
    rw [GenerateHashWithSalt_eq, generateHash_eq]
    exact ⟨goUint32_eq_self hs1 hs2, goUint8_eq_self ht1 ht2,
      goUint32_eq_self hm1 hm2, goUint32_eq_self hl1 hl2, bytesToStr_strBytes key⟩

/-- Claim C6, witness: the field equations at the in-range call
`GenerateHash 1 2 65536 32 "pw"`. -/
theorem claim_C6_witness :
    (GenerateHash 1 2 65536 32 "pw" [1] 5).1.Time = 1
    ∧ (GenerateHash 1 2 65536 32 "pw" [1] 5).1.Threads = 2
    ∧ (GenerateHash 1 2 65536 32 "pw" [1] 5).1.Memory = 65536
    ∧ (GenerateHash 1 2 65536 32 "pw" [1] 5).1.Length = 32
    ∧ (GenerateHash 1 2 65536 32 "pw" [1] 5).1.Key = "pw" :=
  claim_C6_amended.2.2.1 1 2 65536 32 "pw" [1] 5 (by decide) (by decide)
    (by decide) (by decide) (by decide) (by decide) (by decide) (by decide)
    (by decide)

/-- Claim C6, counterexample to the original claim: the successful call
with `threads = 300` stores `Threads = 300 % 256 = 44`, not the input
parameter. -/
theorem claim_C6_counterexample :
    (GenerateHash 1 300 65536 8 "pw" [7] 3).2 = none
    ∧ (GenerateHash 1 300 65536 8 "pw" [7] 3).1.Threads = 44
    ∧ (44 : ℤ) ≠ 300 := by
  refine ⟨by decide, by decide, by decide⟩

/-- Claim C7.  `GenerateHashWithSalt` is deterministic: the caller's
salt overwrites the primitive-managed salt before hashing, so the
encoded hash (and the error component) are independent of the
primitive's salt oracle and of the measured duration — two calls with
identical arguments produce byte-identical hash output. -/
theorem claim_C7 :
    ∀ (seconds threads memory length : ℤ) (key salt : String)
      (o1 o2 : List ℕ) (d1 d2 : ℕ),
      (GenerateHashWithSalt seconds threads memory length key salt o1 d1).1.Hash =
        (GenerateHashWithSalt seconds threads memory length key salt o2 d2).1.Hash
      ∧ (GenerateHashWithSalt seconds threads memory length key salt o1 d1).2 =
        (GenerateHashWithSalt seconds threads memory length key salt o2 d2).2 := by
  intro seconds threads memory length key salt o1 o2 d1 d2
  rw [GenerateHashWithSalt_eq, GenerateHashWithSalt_eq, generateHash_eq, generateHash_eq]
  exact ⟨rfl, rfl⟩

/-- Claim C7, witness: two calls with different salt oracles and
durations at concrete arguments. -/
theorem claim_C7_witness :
    (GenerateHashWithSalt 1 1 65536 8 "mypassword" "mysalt" [1, 2] 3).1.Hash =
      (GenerateHashWithSalt 1 1 65536 8 "mypassword" "mysalt" [9] 7).1.Hash :=
  (claim_C7 1 1 65536 8 "mypassword" "mysalt" [1, 2] [9] 3 7).1

/-- Claim C8.  The spec's pinned test vector:
`GenerateHashWithSalt(1, 1, 65536, 8, "mypassword", "mysalt")` succeeds,
its hash is the expected encoded string, and `Characters = 51`. -/
theorem claim_C8 :
    (GenerateHashWithSalt 1 1 65536 8 "mypassword" "mysalt" [] 0).1.Hash =
      "$argon2id$v=19$m=65536,t=1,p=1$bXlzYWx0$siUWf7GXJ34"
    ∧ (GenerateHashWithSalt 1 1 65536 8 "mypassword" "mysalt" [] 0).1.Characters = 51
    ∧ (GenerateHashWithSalt 1 1 65536 8 "mypassword" "mysalt" [] 0).2 = none := by
  refine ⟨by decide, by decide, by decide⟩

/-- Claim C9.  On every failing call the generate functions return the
zero-valued `ResultSet` alongside the error: the core of `generateHash`
maps any primitive failure to `(ResultSet{}, err)`, and whenever
`GenerateHash` or `GenerateHashWithSalt` returns an error, the
accompanying `ResultSet` is the zero value. -/
theorem claim_C9 :
    (∀ (params : Parameters) (pw : List ℕ) (prim : List Char × Option HashErr)
      (dur : ℕ) (e : HashErr), prim.2 = some e →
      generateHashCore params pw prim dur = (emptyResultSet, some e))
    ∧ (∀ (seconds threads memory length : ℤ) (key : String) (so : List ℕ)
      (dur : ℕ) (e : HashErr),
      (GenerateHash seconds threads memory length key so dur).2 = some e →
      (GenerateHash seconds threads memory length key so dur).1 = emptyResultSet)
    ∧ (∀ (seconds threads memory length : ℤ) (key salt : String) (so : List ℕ)
      (dur : ℕ) (e : HashErr),
      (GenerateHashWithSalt seconds threads memory length key salt so dur).2 = some e →
      (GenerateHashWithSalt seconds threads memory length key salt so dur).1 =
        emptyResultSet) := by
  refine ⟨?_, ?_, ?_⟩
  · intro params pw prim dur e h
    simp only [generateHashCore, h]
  · intro seconds threads memory length key so dur e h
    rw [GenerateHash_eq, generateHash_eq] at h
    exact absurd h (by simp)
  · intro seconds threads memory length key salt so dur e h
    rw [GenerateHashWithSalt_eq, generateHash_eq] at h
    exact absurd h (by simp)

/-- Claim C9, witness: the core applied to a failing primitive outcome
returns the zero `ResultSet` together with the error. -/
theorem claim_C9_witness :
    generateHashCore { Time := 1, Memory := 65536, Threads := 1, Length := 8, Salt := [] }
      [] ([], some .HashingFailure) 0 = (emptyResultSet, some .HashingFailure) :=
  claim_C9.1 { Time := 1, Memory := 65536, Threads := 1, Length := 8, Salt := [] }
    [] ([], some .HashingFailure) 0 .HashingFailure rfl

end Aph
